import Mathlib

/-!
Shallow embedding of `src/asp/IceBridge/fetch_icebridge_data.py` (a Python 2
tool downloading IceBridge flight data) together with theorems settling the
specification claims about it.

Modelling conventions:
* the local filesystem is an association list `Fs` from path to file size
  (only existence and positive size are observable in the program);
* HTTP interactions are parameters: the HEAD status of a URL, the HTML text
  of an index page;
* functions from the sibling module `icebridge_common`
  (`getFrameNumberFromFilename2`, `hasImageExtension`, `isValidImage`,
  `getLargestFrame`, `getSmallestFrame`) are not part of the source tree,
  so the embedding is parametric in them;
* Python regular expressions used by the script are embedded by a small
  backtracking matcher covering exactly the constructs the script uses
  (literals under IGNORECASE, the classes `[0-9_]` and `\w`, `.`, `*`, `+`).
-/

namespace IceBridge

/-- Filesystem model: association list from absolute path to file size in
bytes.  `os.path.exists` is membership, `os.path.getsize` is the stored
size. -/
abbrev Fs : Type := List (String × Nat)

/-- `os.path.exists(path)` -/
def fsExists (fs : Fs) (p : String) : Bool :=
  (List.lookup p fs).isSome

/-- `os.path.getsize(path)` (0 when absent; the script only calls it on
existing paths). -/
def fsSize (fs : Fs) (p : String) : Nat :=
  (List.lookup p fs).getD 0

/-- `os.remove(path)` -/
def fsRemove (fs : Fs) (p : String) : Fs :=
  (fs : List (String × Nat)).filter (fun q => q.1 ≠ p)

/-- Writing a file: replace any entry for the path with the new size. -/
def fsWrite (fs : Fs) (p : String) (sz : Nat) : Fs :=
  (p, sz) :: fsRemove fs p

/-- `fileExists` (line 101): the path exists and has size `> 0`. -/
def fileExists (fs : Fs) (path : String) : Bool :=
  fsExists fs path && decide (fsSize fs path > 0)

/-- Python 2 `posixpath.join(a, b)`: if `b` is absolute it wins; otherwise
`a` and `b` are glued with exactly one `/` (none added when `a` is empty or
already ends with `/`). -/
def pathJoin (a b : String) : String :=
  if b.data.head? = some '/' then b
  else if a = "" ∨ a.data.getLast? = some '/' then a ++ b
  else a ++ "/" ++ b

/-- Python `'%0Nd' % n` for a nonnegative `n`: decimal digits, left-padded
with zeros to width `w`. -/
def pad (w : Nat) (n : Nat) : String :=
  let s := toString n
  if s.length < w then String.mk (List.replicate (w - s.length) '0') ++ s else s

/-- `makeYearFolder` (line 62): only used for images. -/
def makeYearFolder (year : Nat) (site : String) : String :=
  toString year ++ "_" ++ site ++ "_NASA"

/-- `makeDateFolder` (line 66). -/
def makeDateFolder (year month day : Nat) (fileType : String) : String :=
  if fileType = "image" then
    pad 2 month ++ pad 2 day ++ pad 4 year ++ "_raw"
  else
    pad 4 year ++ "." ++ pad 2 month ++ "." ++ pad 2 day

/-- `getFolderUrl` (line 76).  For a `fileType` outside the six known ones
the Python function hits an unbound local variable (`NameError`), modelled
as `none`. -/
def getFolderUrl (year month day : Nat) (site : String) (fileType : String) :
    Option String :=
  if fileType = "image" then
    let base := "https://n5eil01u.ecs.nsidc.org/ICEBRIDGE_FTP/IODMS0_DMSraw_v01"
    some (pathJoin (pathJoin base (makeYearFolder year site))
      (makeDateFolder year month day fileType))
  else
    let base? : Option String :=
      if fileType = "ortho" then some "https://n5eil01u.ecs.nsidc.org/ICEBRIDGE/IODMS1B.001"
      else if fileType = "dem" then some "https://n5eil01u.ecs.nsidc.org/ICEBRIDGE/IODMS3.001"
      else if fileType = "lvis" then some "https://n5eil01u.ecs.nsidc.org/ICEBRIDGE/ILVIS2.001/"
      else if fileType = "atm1" then some "https://n5eil01u.ecs.nsidc.org/ICEBRIDGE/ILATM1B.001/"
      else if fileType = "atm2" then some "https://n5eil01u.ecs.nsidc.org/ICEBRIDGE/ILATM1B.002/"
      else none
    base?.map (fun base => pathJoin base (makeDateFolder year month day fileType))

/-- `checkIfUrlExists` (line 52): one HEAD request is issued; the result
depends only on the response status.  `headStatus` is the status the remote
server answers for the URL. -/
def checkIfUrlExists (headStatus : String → Nat) (url : String) : Bool :=
  let status := headStatus url
  (status == 403) || (status == 301)

/-! ### Regular expressions

The script feeds six fixed patterns to `re.findall(..., re.IGNORECASE)`.
They only use literal characters, the classes `[0-9_]` and `\w`, the dot,
and the quantifiers `*` and `+` applied to single-character atoms, so a
small backtracking matcher with greedy quantifiers embeds them exactly
(Python 2 `str` patterns: ASCII `\w`, `.` does not match a newline).  -/

/-- Single-character pattern element. -/
inductive RChar : Type
  /-- a literal character, compared case-insensitively (`re.IGNORECASE`) -/
  | lit (c : Char) : RChar
  /-- the class `[0-9_]` -/
  | digitUnd : RChar
  /-- the class `\w` = `[a-zA-Z0-9_]` (ASCII, Python 2 default) -/
  | wordC : RChar
  /-- `.` : any character except a newline -/
  | anyC : RChar
deriving DecidableEq

/-- Whether character `c` is accepted by the element `rc`. -/
def rcMatch (rc : RChar) (c : Char) : Bool :=
  match rc with
  | .lit l => c.toLower == l.toLower
  | .digitUnd => (decide ('0' ≤ c) && decide (c ≤ '9')) || c == '_'
  | .wordC => (decide ('0' ≤ c) && decide (c ≤ '9')) ||
      (decide ('a' ≤ c) && decide (c ≤ 'z')) ||
      (decide ('A' ≤ c) && decide (c ≤ 'Z')) || c == '_'
  | .anyC => c != '\n'

/-- Pattern atom: one element, or a greedy `*` / `+` over one element. -/
inductive Atom : Type
  | one (rc : RChar) : Atom
  | star (rc : RChar) : Atom
  | plus (rc : RChar) : Atom
deriving DecidableEq

mutual

/-- Try to match the atom sequence `p` at the start of `s`; return the
number of characters consumed by the leftmost match Python's backtracking
engine produces (greedy quantifiers, backtracking on failure). -/
def matchHere : List Atom → List Char → Option Nat
  | [], _ => some 0
  | .one _rc :: _ps, [] => none
  | .one rc :: ps, c :: rest =>
      if rcMatch rc c then (matchHere ps rest).map (· + 1) else none
  | .star rc :: ps, s => tryStar rc ps s
  | .plus _rc :: _ps, [] => none
  | .plus rc :: ps, c :: rest =>
      if rcMatch rc c then (tryStar rc ps rest).map (· + 1) else none
termination_by p s => (s.length, p.length, 0)

/-- Greedy repetition of `rc` followed by `ps`: consume as many `rc`-chars
as possible, backtracking one at a time until the tail matches. -/
def tryStar (rc : RChar) (ps : List Atom) : List Char → Option Nat
  | [] => matchHere ps []
  | c :: rest =>
      if rcMatch rc c then
        match tryStar rc ps rest with
        | some m => some (m + 1)
        | none => matchHere ps (c :: rest)
      else matchHere ps (c :: rest)
termination_by s => (s.length, ps.length, 1)

end

/-- `re.findall` on character lists: scan left to right; at each position
try to match; on a match of length `n > 0` record it and resume after it,
otherwise advance one character.  (The script's patterns all start with a
literal `>`, so empty matches cannot occur; an empty match advances by one
as Python does.) -/
def findAllAux (p : List Atom) : List Char → List (List Char)
  | [] => []
  | c :: rest =>
      match h : matchHere p (c :: rest) with
      | some n =>
        if hn : n = 0 then findAllAux p rest
        else (c :: rest).take n :: findAllAux p ((c :: rest).drop n)
      | none => findAllAux p rest
termination_by s => s.length
decreasing_by
  all_goals simp only [List.length_drop, List.length_cons]
  all_goals omega

/-- `re.findall(pattern, text, re.IGNORECASE)` for the embedded patterns. -/
def findall (p : List Atom) (s : String) : List String :=
  (findAllAux p s.data).map (fun l => String.mk l)

/-- A sequence of case-insensitive literal atoms. -/
def lits (s : String) : List Atom :=
  s.data.map (fun c => Atom.one (RChar.lit c))

/-- `">[0-9_]*.JPG"` -/
def patImage : List Atom :=
  Atom.one (.lit '>') :: Atom.star .digitUnd :: Atom.one .anyC :: lits "JPG"

/-- `">DMS\w*.tif<"` -/
def patOrtho : List Atom :=
  lits ">DMS" ++ [Atom.star .wordC, Atom.one .anyC] ++ lits "tif<"

/-- `">IODMS\w*DEM.tif"` -/
def patDem : List Atom :=
  lits ">IODMS" ++ [Atom.star .wordC] ++ lits "DEM" ++ [Atom.one .anyC] ++ lits "tif"

/-- `">ILVIS\w+.TXT"` -/
def patLvis : List Atom :=
  lits ">ILVIS" ++ [Atom.plus .wordC, Atom.one .anyC] ++ lits "TXT"

/-- `">ILATM1B[0-9_]*.ATM4\w+.qi"` -/
def patAtm1 : List Atom :=
  lits ">ILATM1B" ++ [Atom.star .digitUnd, Atom.one .anyC] ++ lits "ATM4" ++
    [Atom.plus .wordC, Atom.one .anyC] ++ lits "qi"

/-- `">ILATM1B[0-9_]*.ATM\w+.h5"` -/
def patAtm2 : List Atom :=
  lits ">ILATM1B" ++ [Atom.star .digitUnd, Atom.one .anyC] ++ lits "ATM" ++
    [Atom.plus .wordC, Atom.one .anyC] ++ lits "h5"

/-- Lines 127-142 of `fetchAndParseIndexFile`: `fileList` as a function of
the file type and the downloaded index text, mirroring the sequential `if`
chain of the source. -/
def extractFileList (fileType : String) (indexText : String) : List String :=
  let fileList : List String := []
  let fileList := if fileType = "image" then findall patImage indexText else fileList
  let fileList := if fileType = "ortho" then findall patOrtho indexText else fileList
  let fileList := if fileType = "dem" then findall patDem indexText else fileList
  let fileList := if fileType = "lvis" then findall patLvis indexText else fileList
  let fileList := if fileType = "atm1" then findall patAtm1 indexText else fileList
  let fileList := if fileType = "atm2" then findall patAtm2 indexText else fileList
  fileList

/-- Lines 148-149: `filename.replace(">", "").replace("<", "")`. -/
def stripAngles (s : String) : String :=
  String.mk (s.data.filter (fun c => c ≠ '>' ∧ c ≠ '<'))

/-- Lines 144-151 of `fetchAndParseIndexFile`: the text written to the
parsed index file, one `"<frame>, <filename>\n"` line per regex match, in
match order.  `getFrame` stands for
`icebridge_common.getFrameNumberFromFilename2`, which is outside the source
tree; the embedding is parametric in it. -/
def parsedIndexText (getFrame : String → Int) (fileType : String)
    (indexText : String) : String :=
  (extractFileList fileType indexText).foldl
    (fun acc m =>
      let filename := stripAngles m
      acc ++ toString (getFrame filename) ++ ", " ++ filename ++ "\n") ""

/-! ### The frame table and the selection of a frame range (`main`) -/

/-- The in-memory content read from the parsed index file, in file order:
`(frameNumber, filename)` pairs (lines 287-291).  `frameDict` is the Python
dict built from it (later lines overwrite earlier ones). -/
abbrev FrameTable : Type := List (Int × String)

/-- The keys inserted into `frameDict`, in insertion order and with
duplicates. -/
def frameKeys (table : FrameTable) : List Int :=
  (table : List (Int × String)).map Prod.fst

/-- `frameDict[frame]` : the dict keeps the last binding of a key. -/
def frameDictLookup (table : FrameTable) (f : Int) : Option String :=
  List.lookup f (table : List (Int × String)).reverse

/-- `sorted(frameDict.keys())` (line 323): the distinct keys in increasing
order. -/
def allFramesOf (table : FrameTable) : List Int :=
  ((frameKeys table).dedup).insertionSort (· ≤ ·)

/-- Lines 285, 292-293: `firstFrame` starts at
`icebridge_common.getLargestFrame()` (parameter `L`, a sentinel larger than
every real frame) and is lowered to every key read. -/
def firstFrameOf (L : Int) (table : FrameTable) : Int :=
  (frameKeys table).foldl (fun acc f => if f < acc then f else acc) L

/-- Lines 286, 294-295: `lastFrame` starts at
`icebridge_common.getSmallestFrame()` (parameter `S`) and is raised to every
key read. -/
def lastFrameOf (S : Int) (table : FrameTable) : Int :=
  (frameKeys table).foldl (fun acc f => if f > acc then f else acc) S

/-- Python 2 truthiness of an optional int: `None` and `0` are falsy. -/
def pyFalsy : Option Int → Bool
  | none => true
  | some n => n == 0

/-- Line 204-205: `if not options.stopFrame: options.stopFrame =
options.startFrame`. -/
def resolveStopFrame (startFrame stopFrame : Option Int) : Option Int :=
  if pyFalsy stopFrame then startFrame else stopFrame

/-- Python 2 `frame >= startFrame` where `startFrame` may be `None`
(`None` is smaller than every int). -/
def pyGeOpt (f : Int) : Option Int → Bool
  | none => true
  | some s => decide (s ≤ f)

/-- Python 2 `frame <= stopFrame` where `stopFrame` may be `None`. -/
def pyLeOpt (f : Int) : Option Int → Bool
  | none => false
  | some s => decide (f ≤ s)

/-- Line 329: the condition under which a frame of the table is selected
for fetching. -/
def frameSelected (startFrame stopFrame : Option Int) (f : Int) : Bool :=
  pyGeOpt f startFrame && pyLeOpt f stopFrame

/-- The frames `main` fetches files for: the sorted distinct keys filtered
by the range condition, in iteration order. -/
def selectedFrames (startFrame stopFrame : Option Int) (table : FrameTable) :
    List Int :=
  (allFramesOf table).filter (frameSelected startFrame stopFrame)

/-! ### The download loop (lines 310-365) -/

/-- `MAX_IN_ONE_CALL` (line 319). -/
def MAX_IN_ONE_CALL : Nat := 100

/-- `LIDAR_TYPES` (line 50). -/
def LIDAR_TYPES : List String := ["lvis", "atm1", "atm2"]

/-- State threaded through the download loop.  `curlUrls` is the list of
`-O <url>` targets accumulated in the current curl command, `count` is
`currentFileCount`, `batches` records the target lists of the curl commands
executed so far (in order), `allFilesToFetch` the accumulated output paths,
`fs` the filesystem (files can be wiped by the loop). -/
structure DLState : Type where
  fs : Fs
  curlUrls : List String
  count : Nat
  batches : List (List String)
  allFilesToFetch : List String
deriving DecidableEq

/-- Lines 344-349: under `--zip-if-all-fetched`, wipe an output file that
has an image extension, exists, and fails image validation (`curl` may have
left an incomplete image behind). -/
def wipeStep (zip : Bool) (hasImg isValid : String → Bool) (fs : Fs)
    (outputPath : String) : Fs :=
  if zip && hasImg outputPath && (fileExists fs outputPath && !isValid outputPath) then
    fsRemove fs outputPath
  else fs

/-- Lines 339-354, processing one `filename` of `currFilesToFetch`:
record the output path, wipe an existing invalid image when
`--zip-if-all-fetched` is on, and append the URL to the curl command iff
the output path fails the `fileExists` check at that point.
`hasImg` stands for `icebridge_common.hasImageExtension` and `isValid` for
`icebridge_common.isValidImage`, both outside the source tree. -/
def fileStep (zip : Bool) (hasImg isValid : String → Bool)
    (folderUrl outputFolder : String) (filename : String) (st : DLState) :
    DLState :=
  let url := pathJoin folderUrl filename
  let outputPath := pathJoin outputFolder filename
  let st := { st with allFilesToFetch := st.allFilesToFetch ++ [outputPath] }
  let st := { st with fs := wipeStep zip hasImg isValid st.fs outputPath }
  if !fileExists st.fs outputPath then
    { st with curlUrls := st.curlUrls ++ [url], count := st.count + 1 }
  else st

/-- Lines 333-337: the files fetched for one selected frame: the frame's
filename, plus its `.xml` companion for ortho and lidar types. -/
def currFilesToFetch (fileType : String) (filename : String) : List String :=
  if fileType ∈ LIDAR_TYPES ∨ fileType = "ortho" then [filename, filename ++ ".xml"]
  else [filename]

/-- Folding `fileStep` over a list of filenames (the inner `for filename in
currFilesToFetch` loop, lines 339-354). -/
def filesFold (zip : Bool) (hasImg isValid : String → Bool)
    (folderUrl outputFolder : String) (fns : List String) (st : DLState) :
    DLState :=
  fns.foldl (fun st fn => fileStep zip hasImg isValid folderUrl outputFolder fn st) st

/-- Lines 356-365: execute the accumulated curl command when the count
reached `MAX_IN_ONE_CALL` or this is the table's last frame, and something
is pending; then start the command fresh.  (`options.dryRun` only
suppresses running the command, not the flush/reset, so `batches` records
the commands that would be printed or run.) -/
def flushStep (lastFrame? : Option Int) (frame : Int) (st : DLState) : DLState :=
  if (decide (st.count ≥ MAX_IN_ONE_CALL) || (some frame == lastFrame?)) &&
      decide (st.count > 0) then
    { st with batches := st.batches ++ [st.curlUrls], count := 0, curlUrls := [] }
  else st

/-- Lines 328-365, the body of `for frame in allFrames`: process the
frame's files when it is in range, then flush. -/
def frameStep (zip : Bool) (hasImg isValid : String → Bool)
    (fileType folderUrl outputFolder : String)
    (startFrame stopFrame : Option Int) (table : FrameTable)
    (lastFrame? : Option Int) (frame : Int) (st : DLState) : DLState :=
  flushStep lastFrame? frame
    (if frameSelected startFrame stopFrame frame then
      filesFold zip hasImg isValid folderUrl outputFolder
        (currFilesToFetch fileType ((frameDictLookup table frame).getD "")) st
    else st)

/-- Lines 321-365: the whole download loop over `sorted(frameDict.keys())`,
starting from an empty curl command. -/
def runDownloadLoop (zip : Bool) (hasImg isValid : String → Bool)
    (fileType folderUrl outputFolder : String)
    (startFrame stopFrame : Option Int) (table : FrameTable) (fs : Fs) :
    DLState :=
  let frames := allFramesOf table
  frames.foldl
    (fun st frame =>
      frameStep zip hasImg isValid fileType folderUrl outputFolder
        startFrame stopFrame table frames.getLast? frame st)
    { fs := fs, curlUrls := [], count := 0, batches := [], allFilesToFetch := [] }

/-! Specification-side account of the download loop, following the spec's
words for the batching claim: the download requests are the URLs of the
selected frames' files that fail the existence check, independent of any
batching.  `runDownloadLoop` is compared against this. -/

/-- Spec-side: the URLs requested for one filename, with the filesystem
after the possible wipe. -/
def specFileUrls (zip : Bool) (hasImg isValid : String → Bool)
    (folderUrl outputFolder : String) (filename : String) (fs : Fs) :
    List String × Fs :=
  let outputPath := pathJoin outputFolder filename
  let fs := wipeStep zip hasImg isValid fs outputPath
  if !fileExists fs outputPath then ([pathJoin folderUrl filename], fs)
  else ([], fs)

/-- Spec-side: the URLs requested for a list of filenames, threading the
filesystem. -/
def specFilesUrls (zip : Bool) (hasImg isValid : String → Bool)
    (folderUrl outputFolder : String) (fns : List String) (fs : Fs) :
    List String × Fs :=
  fns.foldl
    (fun acc fn =>
      let r := specFileUrls zip hasImg isValid folderUrl outputFolder fn acc.2
      (acc.1 ++ r.1, r.2))
    ([], fs)

/-- Spec-side: the URLs requested for one frame of the table. -/
def specFrameUrls (zip : Bool) (hasImg isValid : String → Bool)
    (fileType folderUrl outputFolder : String)
    (startFrame stopFrame : Option Int) (table : FrameTable) (frame : Int)
    (fs : Fs) : List String × Fs :=
  if frameSelected startFrame stopFrame frame then
    specFilesUrls zip hasImg isValid folderUrl outputFolder
      (currFilesToFetch fileType ((frameDictLookup table frame).getD "")) fs
  else ([], fs)

/-- Spec-side: the URLs requested by a list of frames, threading the
filesystem. -/
def specFramesUrls (zip : Bool) (hasImg isValid : String → Bool)
    (fileType folderUrl outputFolder : String)
    (startFrame stopFrame : Option Int) (table : FrameTable)
    (frames : List Int) (fs : Fs) : List String × Fs :=
  frames.foldl
    (fun acc frame =>
      let r := specFrameUrls zip hasImg isValid fileType folderUrl outputFolder
        startFrame stopFrame table frame acc.2
      (acc.1 ++ r.1, r.2))
    (([] : List String), fs)

/-- Spec-side: all URLs the selected frames require, in order. -/
def specRequestedUrls (zip : Bool) (hasImg isValid : String → Bool)
    (fileType folderUrl outputFolder : String)
    (startFrame stopFrame : Option Int) (table : FrameTable) (fs : Fs) :
    List String :=
  (specFramesUrls zip hasImg isValid fileType folderUrl outputFolder
    startFrame stopFrame table (allFramesOf table) fs).1

/-- Invariant of the download loop between frames: `currentFileCount`
counts the targets of the pending curl command, it is at most
`MAX_IN_ONE_CALL - 1` (a pending count of `MAX_IN_ONE_CALL` or more is
flushed at the end of the frame that produced it), and every executed
command had at most `MAX_IN_ONE_CALL + 1` targets. -/
def DLInv (st : DLState) : Prop :=
  st.count = st.curlUrls.length ∧ st.count + 1 ≤ MAX_IN_ONE_CALL ∧
    ∀ b ∈ st.batches, b.length ≤ MAX_IN_ONE_CALL + 1

/-! ### Final verification under `--zip-if-all-fetched` (lines 368-386) -/

/-- Outcome of the final check: either an exception (with the filesystem at
the moment it is raised, since an invalid image is wiped just before
raising) or the filesystem after success, in which case `main` returns 0. -/
def finalValidation (hasImg isValid : String → Bool) (fs : Fs) :
    List String → Except (String × Fs) Fs
  | [] => .ok fs
  | outputPath :: rest =>
      if !fileExists fs outputPath then
        .error ("Cannot zip, missing file: " ++ outputPath, fs)
      else if hasImg outputPath && !isValid outputPath then
        .error ("Found an invalid image. Cannot zip. Please rerun fetching. " ++
          "Will wipe the invalid image: " ++ outputPath, fsRemove fs outputPath)
      else finalValidation hasImg isValid fs rest

/-- Lines 368-386 followed by `return 0` (line 386): when
`--zip-if-all-fetched` is set the final check runs over `allFilesToFetch`;
if it passes (or the flag is off) `main` returns 0. -/
def zipFinalCheck (zipIfAllFetched : Bool) (hasImg isValid : String → Bool)
    (fs : Fs) (allFilesToFetch : List String) : Except (String × Fs) Int :=
  if zipIfAllFetched then
    (finalValidation hasImg isValid fs allFilesToFetch).map (fun _ => (0 : Int))
  else .ok 0

/-! ### Index fetching and caching (lines 258-295) -/

/-- Observable events of the index phase: fetching the HTML index from the
network, writing the parsed table, reading the parsed table. -/
inductive IdxEvent : Type
  | fetchHtml : IdxEvent
  | writeParsed : IdxEvent
  | readParsed : IdxEvent
deriving DecidableEq

/-- Lines 258-295: remove the two index files under `--refetch-index`;
if the parsed index exists with positive size keep it, otherwise fetch the
HTML index and write the parsed table (`fetchAndParseIndexFile`); then the
parsed table is read (once, lines 283-295) to build the frame dictionary.
`html` is the index page the server would return; the file sizes written
are the byte counts of the respective contents.  Returns the final
filesystem and the event trace. -/
def indexPhase (getFrame : String → Int) (refetchIndex : Bool)
    (fileType : String) (indexPath parsedIndexPath : String) (html : String)
    (fs : Fs) : Fs × List IdxEvent :=
  let fs :=
    if refetchIndex then fsRemove (fsRemove fs indexPath) parsedIndexPath else fs
  if fileExists fs parsedIndexPath then (fs, [.readParsed])
  else
    let parsed := parsedIndexText getFrame fileType html
    let fs := fsWrite fs indexPath html.utf8ByteSize
    let fs := fsWrite fs parsedIndexPath parsed.utf8ByteSize
    (fs, [.fetchHtml, .writeParsed, .readParsed])

/-! ### Lidar source fallback (lines 236-253) -/

/-- Line 241-243: whether the folder URL of lidar type `t` passes
`checkIfUrlExists`. -/
def lidarUrlOk (headStatus : String → Nat) (year month day : Nat)
    (site t : String) : Bool :=
  checkIfUrlExists headStatus ((getFolderUrl year month day site t).getD "")

/-- Lines 240-246: the `for lidar in LIDAR_TYPES` loop with `break`:
the first lidar type whose folder URL passes `checkIfUrlExists`. -/
def findLidarType (headStatus : String → Nat) (year month day : Nat)
    (site : String) : List String → Option String
  | [] => none
  | t :: ts =>
      if lidarUrlOk headStatus year month day site t then some t
      else findLidarType headStatus year month day site ts

/-- Lines 236-253: for `--type lidar`, force all-frames mode and switch
`options.type` to the first lidar type whose URL exists; when none exists
return `-1`, unless `--zip-if-all-fetched` is set, in which case only a
warning is logged and the type stays `"lidar"`.  The result is `.error r`
for an early `return r`, or `.ok (effectiveType, allFrames)`. -/
def lidarResolve (zipIfAllFetched : Bool) (headStatus : String → Nat)
    (year month day : Nat) (site : String) : Except Int (String × Bool) :=
  match findLidarType headStatus year month day site LIDAR_TYPES with
  | some t => .ok (t, true)
  | none => if zipIfAllFetched then .ok ("lidar", true) else .error (-1)

/-! ## Helper lemmas -/

lemma strJoin_cons (s : String) (l : List String) :
    String.join (s :: l) = s ++ String.join l := by
  rw [String.join_eq, String.join_eq]
  apply String.ext
  simp

lemma strFoldl_join (f : α → String) (l : List α) :
    ∀ a : String, l.foldl (fun acc x => acc ++ f x) a = a ++ String.join (l.map f) := by
  induction l with
  | nil => intro a; simp [String.join, String.append_empty]
  | cons x l ih =>
      intro a
      rw [List.foldl_cons, ih (a ++ f x), List.map_cons, strJoin_cons,
        String.append_assoc]

lemma lookup_fsRemove_self (fs : Fs) (p : String) :
    List.lookup p (fsRemove fs p) = none := by
  induction fs with
  | nil => rfl
  | cons q rest ih =>
      obtain ⟨k, v⟩ := q
      by_cases hq : k = p
      · have he : fsRemove ((k, v) :: rest) p = fsRemove rest p := by
          simp [fsRemove, List.filter_cons, hq]
        rw [he]
        exact ih
      · have he : fsRemove ((k, v) :: rest) p = (k, v) :: fsRemove rest p := by
          simp [fsRemove, List.filter_cons, hq]
        have hne : (p == k) = false := by
          simp [Ne.symm hq]
        rw [he, List.lookup, hne]
        exact ih

lemma fileExists_fsRemove_self (fs : Fs) (p : String) :
    fileExists (fsRemove fs p) p = false := by
  simp [fileExists, fsExists, fsSize, lookup_fsRemove_self]

/-- The running minimum computed by the index-reading loop: it either stays
at the initial sentinel or is an element of the list, it never exceeds the
sentinel, and it is a lower bound of the list. -/
lemma foldlMin_spec (l : List Int) : ∀ a : Int,
    (l.foldl (fun acc f => if f < acc then f else acc) a = a ∨
      l.foldl (fun acc f => if f < acc then f else acc) a ∈ l)
    ∧ l.foldl (fun acc f => if f < acc then f else acc) a ≤ a
    ∧ ∀ f ∈ l, l.foldl (fun acc f => if f < acc then f else acc) a ≤ f := by
  induction l with
  | nil => intro a; simp
  | cons x l ih =>
      intro a
      obtain ⟨ih1, ih2, ih3⟩ := ih (if x < a then x else a)
      rw [List.foldl_cons]
      have hga : (if x < a then x else a) ≤ a := by split <;> omega
      have hgx : (if x < a then x else a) ≤ x := by split <;> omega
      refine ⟨?_, le_trans ih2 hga, ?_⟩
      · rcases ih1 with h | h
        · rw [h]
          split
          · right; exact List.mem_cons_self x l
          · left; rfl
        · right; exact List.mem_cons_of_mem x h
      · intro f hf
        rcases List.mem_cons.mp hf with rfl | hf
        · exact le_trans ih2 hgx
        · exact ih3 f hf

/-- The running maximum computed by the index-reading loop, mirrored. -/
lemma foldlMax_spec (l : List Int) : ∀ a : Int,
    (l.foldl (fun acc f => if f > acc then f else acc) a = a ∨
      l.foldl (fun acc f => if f > acc then f else acc) a ∈ l)
    ∧ a ≤ l.foldl (fun acc f => if f > acc then f else acc) a
    ∧ ∀ f ∈ l, f ≤ l.foldl (fun acc f => if f > acc then f else acc) a := by
  induction l with
  | nil => intro a; simp
  | cons x l ih =>
      intro a
      obtain ⟨ih1, ih2, ih3⟩ := ih (if x > a then x else a)
      rw [List.foldl_cons]
      have hga : a ≤ (if x > a then x else a) := by split <;> omega
      have hgx : x ≤ (if x > a then x else a) := by split <;> omega
      refine ⟨?_, le_trans hga ih2, ?_⟩
      · rcases ih1 with h | h
        · rw [h]
          split
          · right; exact List.mem_cons_self x l
          · left; rfl
        · right; exact List.mem_cons_of_mem x h
      · intro f hf
        rcases List.mem_cons.mp hf with rfl | hf
        · exact le_trans hgx ih2
        · exact ih3 f hf

lemma mem_allFramesOf (table : FrameTable) (f : Int) :
    f ∈ allFramesOf table ↔ f ∈ frameKeys table := by
  simp [allFramesOf, List.mem_insertionSort, List.mem_dedup]

lemma sorted_allFramesOf (table : FrameTable) :
    List.Sorted (· < ·) (allFramesOf table) := by
  have hs : List.Sorted (· ≤ ·) (allFramesOf table) :=
    List.sorted_insertionSort (· ≤ ·) _
  have hn : (allFramesOf table).Nodup :=
    ((List.perm_insertionSort (· ≤ ·) _).nodup_iff).mpr
      (List.nodup_dedup (frameKeys table))
  exact List.Sorted.lt_of_le hs hn

/-- One file of the loop against its spec account: the curl command grows
exactly by the spec's URLs for the file, the count by their number (at most
one), batches are untouched and the filesystems agree. -/
lemma fileStep_spec (zip : Bool) (hasImg isValid : String → Bool)
    (folderUrl outputFolder fn : String) (st : DLState) :
    (fileStep zip hasImg isValid folderUrl outputFolder fn st).curlUrls =
      st.curlUrls ++ (specFileUrls zip hasImg isValid folderUrl outputFolder fn st.fs).1
    ∧ (fileStep zip hasImg isValid folderUrl outputFolder fn st).count =
      st.count + (specFileUrls zip hasImg isValid folderUrl outputFolder fn st.fs).1.length
    ∧ (fileStep zip hasImg isValid folderUrl outputFolder fn st).batches = st.batches
    ∧ (fileStep zip hasImg isValid folderUrl outputFolder fn st).fs =
      (specFileUrls zip hasImg isValid folderUrl outputFolder fn st.fs).2 := by
  by_cases hex : fileExists
      (wipeStep zip hasImg isValid st.fs (pathJoin outputFolder fn))
      (pathJoin outputFolder fn) = true
  · simp [fileStep, specFileUrls, hex]
  · simp only [Bool.not_eq_true] at hex
    simp [fileStep, specFileUrls, hex]

lemma specFileUrls_length (zip : Bool) (hasImg isValid : String → Bool)
    (folderUrl outputFolder fn : String) (fs : Fs) :
    (specFileUrls zip hasImg isValid folderUrl outputFolder fn fs).1.length ≤ 1 := by
  by_cases hex : fileExists
      (wipeStep zip hasImg isValid fs (pathJoin outputFolder fn))
      (pathJoin outputFolder fn) = true
  · simp [specFileUrls, hex]
  · simp only [Bool.not_eq_true] at hex
    simp [specFileUrls, hex]

/-- Folding a pair-state step whose URL component is purely accumulative
commutes with the accumulator. -/
lemma pairFold_acc {α : Type} (step : List String × Fs → α → List String × Fs)
    (hstep : ∀ u fs x, step (u, fs) x =
      (u ++ (step ([], fs) x).1, (step ([], fs) x).2)) :
    ∀ (l : List α) (u : List String) (fs : Fs),
      l.foldl step (u, fs) =
        (u ++ (l.foldl step ([], fs)).1, (l.foldl step ([], fs)).2) := by
  intro l
  induction l with
  | nil => intro u fs; simp
  | cons x l ih =>
      intro u fs
      rw [List.foldl_cons, List.foldl_cons, hstep u fs x, hstep [] fs x,
        List.nil_append]
      rcases hsx : step ([], fs) x with ⟨v, fs1⟩
      rw [ih (u ++ v) fs1, ih v fs1, List.append_assoc]

lemma specFilesUrls_cons (zip : Bool) (hasImg isValid : String → Bool)
    (folderUrl outputFolder fn : String) (fns : List String) (fs : Fs) :
    specFilesUrls zip hasImg isValid folderUrl outputFolder (fn :: fns) fs =
      ((specFileUrls zip hasImg isValid folderUrl outputFolder fn fs).1 ++
        (specFilesUrls zip hasImg isValid folderUrl outputFolder fns
          (specFileUrls zip hasImg isValid folderUrl outputFolder fn fs).2).1,
       (specFilesUrls zip hasImg isValid folderUrl outputFolder fns
          (specFileUrls zip hasImg isValid folderUrl outputFolder fn fs).2).2) := by
  rw [specFilesUrls, List.foldl_cons]
  have := pairFold_acc
    (fun acc fn2 =>
      let r := specFileUrls zip hasImg isValid folderUrl outputFolder fn2 acc.2
      (acc.1 ++ r.1, r.2))
    (by intro u fs2 x; simp)
    fns (specFileUrls zip hasImg isValid folderUrl outputFolder fn fs).1
    (specFileUrls zip hasImg isValid folderUrl outputFolder fn fs).2
  simpa [specFilesUrls] using this

lemma specFilesUrls_length (zip : Bool) (hasImg isValid : String → Bool)
    (folderUrl outputFolder : String) (fns : List String) :
    ∀ fs : Fs,
      (specFilesUrls zip hasImg isValid folderUrl outputFolder fns fs).1.length ≤
        fns.length := by
  induction fns with
  | nil => intro fs; simp [specFilesUrls]
  | cons fn fns ih =>
      intro fs
      rw [specFilesUrls_cons]
      simp only [List.length_append, List.length_cons]
      have h1 := specFileUrls_length zip hasImg isValid folderUrl outputFolder fn fs
      have h2 := ih (specFileUrls zip hasImg isValid folderUrl outputFolder fn fs).2
      omega

/-- The inner file loop of a frame against its spec account. -/
lemma filesFold_spec (zip : Bool) (hasImg isValid : String → Bool)
    (folderUrl outputFolder : String) (fns : List String) :
    ∀ st : DLState,
      (filesFold zip hasImg isValid folderUrl outputFolder fns st).curlUrls =
        st.curlUrls ++
          (specFilesUrls zip hasImg isValid folderUrl outputFolder fns st.fs).1
      ∧ (filesFold zip hasImg isValid folderUrl outputFolder fns st).count =
        st.count +
          (specFilesUrls zip hasImg isValid folderUrl outputFolder fns st.fs).1.length
      ∧ (filesFold zip hasImg isValid folderUrl outputFolder fns st).batches =
        st.batches
      ∧ (filesFold zip hasImg isValid folderUrl outputFolder fns st).fs =
        (specFilesUrls zip hasImg isValid folderUrl outputFolder fns st.fs).2 := by
  induction fns with
  | nil => intro st; simp [filesFold, specFilesUrls]
  | cons fn fns ih =>
      intro st
      obtain ⟨hc, hn, hb, hf⟩ :=
        fileStep_spec zip hasImg isValid folderUrl outputFolder fn st
      have hfold : filesFold zip hasImg isValid folderUrl outputFolder (fn :: fns) st =
          filesFold zip hasImg isValid folderUrl outputFolder fns
            (fileStep zip hasImg isValid folderUrl outputFolder fn st) := by
        rw [filesFold, filesFold, List.foldl_cons]
      obtain ⟨ic, in2, ib, if2⟩ :=
        ih (fileStep zip hasImg isValid folderUrl outputFolder fn st)
      rw [hfold, specFilesUrls_cons]
      refine ⟨?_, ?_, ?_, ?_⟩
      · rw [ic, hc, hf, List.append_assoc]
      · rw [in2, hn, hf]
        simp only [List.length_append]
        omega
      · rw [ib, hb]
      · rw [if2, hf]

lemma currFilesToFetch_length (fileType fn : String) :
    (currFilesToFetch fileType fn).length ≤ 2 := by
  rw [currFilesToFetch]
  split <;> simp

/-- The flush keeps the invariant (given that the pending count may have
overshot to at most `MAX_IN_ONE_CALL + 1`), moves URLs only between the
pending command and the executed batches, and leaves the filesystem
alone. -/
lemma flushStep_spec (lastFrame? : Option Int) (frame : Int) (st1 : DLState)
    (h1 : st1.count = st1.curlUrls.length)
    (h2 : st1.count ≤ MAX_IN_ONE_CALL + 1)
    (h3 : ∀ b ∈ st1.batches, b.length ≤ MAX_IN_ONE_CALL + 1) :
    DLInv (flushStep lastFrame? frame st1)
    ∧ (flushStep lastFrame? frame st1).batches.join ++
        (flushStep lastFrame? frame st1).curlUrls =
      st1.batches.join ++ st1.curlUrls
    ∧ (flushStep lastFrame? frame st1).fs = st1.fs := by
  rw [flushStep]
  by_cases hflush : ((decide (st1.count ≥ MAX_IN_ONE_CALL) ||
      (some frame == lastFrame?)) && decide (st1.count > 0)) = true
  · rw [if_pos hflush]
    refine ⟨⟨rfl, ?_, ?_⟩, ?_, rfl⟩
    · show 0 + 1 ≤ MAX_IN_ONE_CALL
      have hM : MAX_IN_ONE_CALL = 100 := rfl
      omega
    · intro b hb
      rcases List.mem_append.mp hb with hb | hb
      · exact h3 b hb
      · rw [List.mem_singleton.mp hb, ← h1]
        exact h2
    · simp [List.flatten_append]
  · rw [if_neg hflush]
    have hc0 : st1.count + 1 ≤ MAX_IN_ONE_CALL := by
      have hM : MAX_IN_ONE_CALL = 100 := rfl
      rcases Nat.eq_zero_or_pos st1.count with h0 | hpos
      · omega
      · have hnge : ¬(st1.count ≥ MAX_IN_ONE_CALL) := by
          intro hge
          exact hflush (by simp [hge, hpos])
        omega
    exact ⟨⟨h1, hc0, h3⟩, rfl, rfl⟩

/-- One frame of the loop: the invariant is preserved, the multiset of URLs
accounted for (executed batches plus the pending command) grows exactly by
the spec's URLs for the frame, and the filesystems agree. -/
lemma frameStep_spec (zip : Bool) (hasImg isValid : String → Bool)
    (fileType folderUrl outputFolder : String)
    (startFrame stopFrame : Option Int) (table : FrameTable)
    (lastFrame? : Option Int) (frame : Int) (st : DLState) (hinv : DLInv st) :
    DLInv (frameStep zip hasImg isValid fileType folderUrl outputFolder
      startFrame stopFrame table lastFrame? frame st)
    ∧ (frameStep zip hasImg isValid fileType folderUrl outputFolder
        startFrame stopFrame table lastFrame? frame st).batches.join ++
      (frameStep zip hasImg isValid fileType folderUrl outputFolder
        startFrame stopFrame table lastFrame? frame st).curlUrls =
      st.batches.join ++ st.curlUrls ++
        (specFrameUrls zip hasImg isValid fileType folderUrl outputFolder
          startFrame stopFrame table frame st.fs).1
    ∧ (frameStep zip hasImg isValid fileType folderUrl outputFolder
        startFrame stopFrame table lastFrame? frame st).fs =
      (specFrameUrls zip hasImg isValid fileType folderUrl outputFolder
        startFrame stopFrame table frame st.fs).2 := by
  obtain ⟨hlen, hle, hbatch⟩ := hinv
  rw [frameStep, specFrameUrls]
  by_cases hsel : frameSelected startFrame stopFrame frame
  · simp only [hsel, if_true]
    set fns := currFilesToFetch fileType ((frameDictLookup table frame).getD "")
      with hfns
    obtain ⟨fc, fn2, fb, ff⟩ :=
      filesFold_spec zip hasImg isValid folderUrl outputFolder fns st
    set st1 := filesFold zip hasImg isValid folderUrl outputFolder fns st with hst1
    have hu2 : (specFilesUrls zip hasImg isValid folderUrl outputFolder fns
        st.fs).1.length ≤ 2 :=
      le_trans
        (specFilesUrls_length zip hasImg isValid folderUrl outputFolder fns st.fs)
        (currFilesToFetch_length fileType _)
    obtain ⟨g1, g2, g3⟩ := flushStep_spec lastFrame? frame st1
      (by rw [fn2, fc]; simp [hlen])
      (by rw [fn2]; omega)
      (fun b hb => hbatch b (fb ▸ hb))
    refine ⟨g1, ?_, by rw [g3, ff]⟩
    rw [g2, fb, fc, List.append_assoc]
  · simp only [hsel, if_false, Bool.false_eq_true, List.append_nil]
    obtain ⟨g1, g2, g3⟩ := flushStep_spec lastFrame? frame st hlen
      (by omega) hbatch
    exact ⟨g1, g2, g3⟩

lemma specFramesUrls_cons (zip : Bool) (hasImg isValid : String → Bool)
    (fileType folderUrl outputFolder : String)
    (startFrame stopFrame : Option Int) (table : FrameTable)
    (f : Int) (frames : List Int) (fs : Fs) :
    specFramesUrls zip hasImg isValid fileType folderUrl outputFolder
      startFrame stopFrame table (f :: frames) fs =
      ((specFrameUrls zip hasImg isValid fileType folderUrl outputFolder
          startFrame stopFrame table f fs).1 ++
        (specFramesUrls zip hasImg isValid fileType folderUrl outputFolder
          startFrame stopFrame table frames
          (specFrameUrls zip hasImg isValid fileType folderUrl outputFolder
            startFrame stopFrame table f fs).2).1,
       (specFramesUrls zip hasImg isValid fileType folderUrl outputFolder
          startFrame stopFrame table frames
          (specFrameUrls zip hasImg isValid fileType folderUrl outputFolder
            startFrame stopFrame table f fs).2).2) := by
  rw [specFramesUrls, List.foldl_cons]
  have := pairFold_acc
    (fun acc frame =>
      let r := specFrameUrls zip hasImg isValid fileType folderUrl outputFolder
        startFrame stopFrame table frame acc.2
      (acc.1 ++ r.1, r.2))
    (by intro u fs2 x; simp)
    frames
    (specFrameUrls zip hasImg isValid fileType folderUrl outputFolder
      startFrame stopFrame table f fs).1
    (specFrameUrls zip hasImg isValid fileType folderUrl outputFolder
      startFrame stopFrame table f fs).2
  simpa [specFramesUrls] using this

/-- The whole download loop against the spec account, for an arbitrary
`lastFrame?` marker: the invariant is preserved, and executed batches plus
the pending command together list exactly the spec's requested URLs. -/
lemma downloadLoop_aux (zip : Bool) (hasImg isValid : String → Bool)
    (fileType folderUrl outputFolder : String)
    (startFrame stopFrame : Option Int) (table : FrameTable)
    (lastFrame? : Option Int) (frames : List Int) :
    ∀ st : DLState, DLInv st →
      DLInv (frames.foldl
        (fun st frame => frameStep zip hasImg isValid fileType folderUrl
          outputFolder startFrame stopFrame table lastFrame? frame st) st)
      ∧ (frames.foldl
          (fun st frame => frameStep zip hasImg isValid fileType folderUrl
            outputFolder startFrame stopFrame table lastFrame? frame st) st).batches.join ++
        (frames.foldl
          (fun st frame => frameStep zip hasImg isValid fileType folderUrl
            outputFolder startFrame stopFrame table lastFrame? frame st) st).curlUrls =
        st.batches.join ++ st.curlUrls ++
          (specFramesUrls zip hasImg isValid fileType folderUrl outputFolder
            startFrame stopFrame table frames st.fs).1
      ∧ (frames.foldl
          (fun st frame => frameStep zip hasImg isValid fileType folderUrl
            outputFolder startFrame stopFrame table lastFrame? frame st) st).fs =
        (specFramesUrls zip hasImg isValid fileType folderUrl outputFolder
          startFrame stopFrame table frames st.fs).2 := by
  induction frames with
  | nil =>
      intro st hinv
      exact ⟨hinv, by simp [specFramesUrls], by simp [specFramesUrls]⟩
  | cons f frames ih =>
      intro st hinv
      obtain ⟨g1, g2, g3⟩ := frameStep_spec zip hasImg isValid fileType folderUrl
        outputFolder startFrame stopFrame table lastFrame? f st hinv
      obtain ⟨i1, i2, i3⟩ := ih
        (frameStep zip hasImg isValid fileType folderUrl outputFolder
          startFrame stopFrame table lastFrame? f st) g1
      rw [List.foldl_cons] at *
      refine ⟨i1, ?_, ?_⟩
      · rw [i2, g2, g3, specFramesUrls_cons, List.append_assoc]
      · rw [i3, g3, specFramesUrls_cons]

/-- Processing the frame marked as last flushes everything: afterwards no
URL is pending. -/
lemma frameStep_getLast (zip : Bool) (hasImg isValid : String → Bool)
    (fileType folderUrl outputFolder : String)
    (startFrame stopFrame : Option Int) (table : FrameTable)
    (frame : Int) (st : DLState) (hinv : DLInv st) :
    (frameStep zip hasImg isValid fileType folderUrl outputFolder
      startFrame stopFrame table (some frame) frame st).curlUrls = [] := by
  rw [frameStep]
  set st1 := (if frameSelected startFrame stopFrame frame then
      filesFold zip hasImg isValid folderUrl outputFolder
        (currFilesToFetch fileType ((frameDictLookup table frame).getD "")) st
    else st) with hst1
  have h1 : st1.count = st1.curlUrls.length := by
    rw [hst1]
    by_cases hsel : frameSelected startFrame stopFrame frame
    · rw [if_pos hsel]
      obtain ⟨fc, fn2, _, _⟩ := filesFold_spec zip hasImg isValid folderUrl
        outputFolder (currFilesToFetch fileType ((frameDictLookup table frame).getD "")) st
      rw [fn2, fc]
      simp [hinv.1]
    · rw [if_neg hsel]
      exact hinv.1
  rw [flushStep]
  by_cases hc : st1.count > 0
  · rw [if_pos (by simp [hc])]
  · have h0 : st1.count = 0 := by omega
    rw [if_neg (by simp [h0])]
    have : st1.curlUrls.length = 0 := by omega
    exact List.length_eq_zero.mp this

/-- After iterating over a nonempty frame list whose own last element is
the `lastFrame` marker (as in `runDownloadLoop`), no URL is left pending:
the final frame flushed everything. -/
lemma downloadLoop_flushes (zip : Bool) (hasImg isValid : String → Bool)
    (fileType folderUrl outputFolder : String)
    (startFrame stopFrame : Option Int) (table : FrameTable)
    (frames : List Int) (hne : frames ≠ []) (st : DLState) (hinv : DLInv st) :
    (frames.foldl
      (fun st frame => frameStep zip hasImg isValid fileType folderUrl
        outputFolder startFrame stopFrame table frames.getLast? frame st) st).curlUrls
      = [] := by
  obtain ⟨init, last, rfl⟩ :
      ∃ init last, frames = init ++ [last] := by
    rcases List.eq_nil_or_concat frames with h | ⟨init, last, h⟩
    · exact absurd h hne
    · exact ⟨init, last, by simpa [List.concat_eq_append] using h⟩
  rw [List.getLast?_concat, List.foldl_append, List.foldl_cons, List.foldl_nil]
  obtain ⟨a1, _, _⟩ := downloadLoop_aux zip hasImg isValid fileType folderUrl
    outputFolder startFrame stopFrame table (some last) init st hinv
  exact frameStep_getLast zip hasImg isValid fileType folderUrl outputFolder
    startFrame stopFrame table last _ a1

/-! ## Claims -/

/-- C1.  Frame-range selection: `main` iterates over the frames of the
parsed table in strictly increasing numeric order and selects exactly those
`f` with `startFrame ≤ f ≤ stopFrame`; an omitted (`None`) or zero
`--stop-frame` is replaced by `--start-frame`; with `--all-frames` the
bounds become the smallest and largest frame of the table (`L` and `S` are
the `getLargestFrame`/`getSmallestFrame` sentinels, bounding every real
frame number), so every listed frame is selected. -/
theorem frame_range_selection (table : FrameTable) (startF stopF : Int)
    (L S : Int) (hbound : ∀ f ∈ frameKeys table, S ≤ f ∧ f ≤ L)
    (hne : table ≠ []) :
    List.Sorted (· < ·) (allFramesOf table)
    ∧ (∀ f : Int, f ∈ selectedFrames (some startF) (some stopF) table ↔
        f ∈ frameKeys table ∧ startF ≤ f ∧ f ≤ stopF)
    ∧ resolveStopFrame (some startF) none = some startF
    ∧ resolveStopFrame (some startF) (some 0) = some startF
    ∧ (∀ n : Int, n ≠ 0 → resolveStopFrame (some startF) (some n) = some n)
    ∧ firstFrameOf L table ∈ frameKeys table
    ∧ (∀ f ∈ frameKeys table, firstFrameOf L table ≤ f)
    ∧ lastFrameOf S table ∈ frameKeys table
    ∧ (∀ f ∈ frameKeys table, f ≤ lastFrameOf S table)
    ∧ selectedFrames (some (firstFrameOf L table)) (some (lastFrameOf S table))
        table = allFramesOf table := by
  obtain ⟨hmin1, hmin2, hmin3⟩ := foldlMin_spec (frameKeys table) L
  obtain ⟨hmax1, hmax2, hmax3⟩ := foldlMax_spec (frameKeys table) S
  have hkeys : frameKeys table ≠ [] := by
    intro h
    exact hne (List.map_eq_nil_iff.mp h)
  obtain ⟨f0, hf0⟩ := List.exists_mem_of_ne_nil _ hkeys
  have hminmem : firstFrameOf L table ∈ frameKeys table := by
    rcases hmin1 with h | h
    · rw [firstFrameOf, h]
      have h1 : L ≤ f0 := h ▸ hmin3 f0 hf0
      have h2 : f0 ≤ L := (hbound f0 hf0).2
      have : f0 = L := le_antisymm h2 h1
      exact this ▸ hf0
    · exact h
  have hmaxmem : lastFrameOf S table ∈ frameKeys table := by
    rcases hmax1 with h | h
    · rw [lastFrameOf, h]
      have h1 : f0 ≤ S := h ▸ hmax3 f0 hf0
      have h2 : S ≤ f0 := (hbound f0 hf0).1
      have : f0 = S := le_antisymm h1 h2
      exact this ▸ hf0
    · exact h
  refine ⟨sorted_allFramesOf table, ?_, rfl, rfl, ?_, hminmem, hmin3, hmaxmem,
    hmax3, ?_⟩
  · intro f
    simp [selectedFrames, List.mem_filter, mem_allFramesOf, frameSelected,
      pyGeOpt, pyLeOpt, and_assoc]
  · intro n hn
    simp [resolveStopFrame, pyFalsy, hn]
  · rw [selectedFrames, List.filter_eq_self]
    intro f hf
    have hfk : f ∈ frameKeys table := (mem_allFramesOf table f).mp hf
    simp only [frameSelected, pyGeOpt, pyLeOpt, Bool.and_eq_true, decide_eq_true_eq]
    exact ⟨hmin3 f hfk, hmax3 f hfk⟩

/-- Witness for C1 on a concrete two-frame table: with the bounds set to the
table's own minimum and maximum, every listed frame is selected. -/
theorem frame_range_selection_witness :
    selectedFrames (some (firstFrameOf 99999 [((3 : Int), "a"), (1, "b")]))
      (some (lastFrameOf (-99999) [((3 : Int), "a"), (1, "b")]))
      [((3 : Int), "a"), (1, "b")] = allFramesOf [((3 : Int), "a"), (1, "b")] :=
  (frame_range_selection [((3 : Int), "a"), (1, "b")] 1 2 99999 (-99999)
    (by decide) (by decide)).2.2.2.2.2.2.2.2.2

/-- C7.  URL-existence check: `checkIfUrlExists` issues a single HTTP HEAD
request for the given URL and returns `True` exactly when the response
status is 403 or 301; every other status (including 200 and 404) is
reported as not valid. -/
theorem url_existence_check (headStatus : String → Nat) (url : String) :
    checkIfUrlExists headStatus url = true ↔
      (headStatus url = 403 ∨ headStatus url = 301) := by
  simp [checkIfUrlExists]

/-- C5.  Folder-URL construction: for every year, month, day and site,
`getFolderUrl` with type `image` joins the `IODMS0_DMSraw_v01` base with
`<year>_<site>_NASA` and `<MM><DD><YYYY>_raw`; each of `ortho`, `dem`,
`lvis`, `atm1`, `atm2` joins that type's fixed base with `<YYYY>.<MM>.<DD>`;
the site argument affects the URL only for type `image`. -/
theorem folder_url_construction (y m d : Nat) (site site2 : String) :
    getFolderUrl y m d site "image" =
      some (pathJoin
        (pathJoin "https://n5eil01u.ecs.nsidc.org/ICEBRIDGE_FTP/IODMS0_DMSraw_v01"
          (toString y ++ "_" ++ site ++ "_NASA"))
        (pad 2 m ++ pad 2 d ++ pad 4 y ++ "_raw"))
    ∧ getFolderUrl y m d site "ortho" =
      some (pathJoin "https://n5eil01u.ecs.nsidc.org/ICEBRIDGE/IODMS1B.001"
        (pad 4 y ++ "." ++ pad 2 m ++ "." ++ pad 2 d))
    ∧ getFolderUrl y m d site "dem" =
      some (pathJoin "https://n5eil01u.ecs.nsidc.org/ICEBRIDGE/IODMS3.001"
        (pad 4 y ++ "." ++ pad 2 m ++ "." ++ pad 2 d))
    ∧ getFolderUrl y m d site "lvis" =
      some (pathJoin "https://n5eil01u.ecs.nsidc.org/ICEBRIDGE/ILVIS2.001/"
        (pad 4 y ++ "." ++ pad 2 m ++ "." ++ pad 2 d))
    ∧ getFolderUrl y m d site "atm1" =
      some (pathJoin "https://n5eil01u.ecs.nsidc.org/ICEBRIDGE/ILATM1B.001/"
        (pad 4 y ++ "." ++ pad 2 m ++ "." ++ pad 2 d))
    ∧ getFolderUrl y m d site "atm2" =
      some (pathJoin "https://n5eil01u.ecs.nsidc.org/ICEBRIDGE/ILATM1B.002/"
        (pad 4 y ++ "." ++ pad 2 m ++ "." ++ pad 2 d))
    ∧ (∀ t ∈ (["ortho", "dem", "lvis", "atm1", "atm2"] : List String),
        getFolderUrl y m d site t = getFolderUrl y m d site2 t) := by
  refine ⟨rfl, rfl, rfl, rfl, rfl, rfl, ?_⟩
  intro t ht
  simp only [List.mem_cons, List.not_mem_nil, or_false] at ht
  rcases ht with rfl | rfl | rfl | rfl | rfl <;> rfl

/-- Witness for C5 at a concrete date: the site is irrelevant for type
`ortho`. -/
theorem folder_url_construction_witness :
    getFolderUrl 2010 3 4 "AN" "ortho" = getFolderUrl 2010 3 4 "GR" "ortho" :=
  (folder_url_construction 2010 3 4 "AN" "GR").2.2.2.2.2.2 "ortho" (by decide)

/-- C3.  Type-specific pattern extraction: `fetchAndParseIndexFile` extracts
from the index HTML exactly the `re.findall` matches of the case-insensitive
per-type pattern for each of the six known types, and for any other
`fileType` the extracted list is empty and the parsed index is written with
no lines. -/
theorem type_pattern_extraction (t s : String) (g : String → Int) :
    extractFileList "image" s = findall patImage s
    ∧ extractFileList "ortho" s = findall patOrtho s
    ∧ extractFileList "dem" s = findall patDem s
    ∧ extractFileList "lvis" s = findall patLvis s
    ∧ extractFileList "atm1" s = findall patAtm1 s
    ∧ extractFileList "atm2" s = findall patAtm2 s
    ∧ (t ∉ (["image", "ortho", "dem", "lvis", "atm1", "atm2"] : List String) →
        extractFileList t s = [] ∧ parsedIndexText g t s = "") := by
  refine ⟨rfl, rfl, rfl, rfl, rfl, rfl, ?_⟩
  intro ht
  simp only [List.mem_cons, List.not_mem_nil, or_false, not_or] at ht
  obtain ⟨h1, h2, h3, h4, h5, h6⟩ := ht
  have hl : extractFileList t s = [] := by
    simp [extractFileList, h1, h2, h3, h4, h5, h6]
  exact ⟨hl, by simp [parsedIndexText, hl]⟩

/-- Witness for C3: a file type outside the six known ones extracts nothing
and writes an empty parsed index. -/
theorem type_pattern_extraction_witness :
    extractFileList "jpeg" ">0123.JPG" = []
    ∧ parsedIndexText (fun _ => 0) "jpeg" ">0123.JPG" = "" :=
  (type_pattern_extraction "jpeg" ">0123.JPG" (fun _ => 0)).2.2.2.2.2.2 (by decide)

/-- C4.  Parsed-table format: the parsed index content is exactly one line
`"<frame>, <filename>\n"` per regex match, in match order, where the
filename is the match stripped of `>` and `<` and the frame is
`getFrameNumberFromFilename2` (parameter `g`) of that filename. -/
theorem parsed_table_format (g : String → Int) (t s : String) :
    parsedIndexText g t s =
      String.join ((extractFileList t s).map
        (fun m => toString (g (stripAngles m)) ++ ", " ++ stripAngles m ++ "\n")) := by
  have h := strFoldl_join
    (fun m => toString (g (stripAngles m)) ++ ", " ++ stripAngles m ++ "\n")
    (extractFileList t s) ""
  rw [parsedIndexText]
  rw [show (fun (acc : String) (m : String) =>
      acc ++ toString (g (stripAngles m)) ++ ", " ++ stripAngles m ++ "\n") =
      (fun acc m => acc ++ (toString (g (stripAngles m)) ++ ", " ++ stripAngles m ++ "\n"))
    from by funext acc m; simp [String.append_assoc]]
  rw [h, String.empty_append]

/-- C9.  Index written once, read once: with the parsed index present
(positive size) and no `--refetch-index`, `main` does not refetch the HTML
index nor rewrite the parsed table and only reads it; otherwise the table is
fetched and written exactly once and read exactly once. -/
theorem index_write_read_once (g : String → Int) (refetch : Bool)
    (t ip pp html : String) (fs : Fs) :
    (refetch = false → fileExists fs pp = true →
      indexPhase g refetch t ip pp html fs = (fs, [IdxEvent.readParsed]))
    ∧ (refetch = true ∨ fileExists fs pp = false →
      (indexPhase g refetch t ip pp html fs).2 =
        [IdxEvent.fetchHtml, IdxEvent.writeParsed, IdxEvent.readParsed])
    ∧ (indexPhase g refetch t ip pp html fs).2.count IdxEvent.writeParsed ≤ 1
    ∧ (indexPhase g refetch t ip pp html fs).2.count IdxEvent.readParsed = 1 := by
  refine ⟨?_, ?_, ?_, ?_⟩
  · rintro rfl hex
    simp [indexPhase, hex]
  · intro h
    rcases refetch with _ | _
    · rcases h with h | hex
      · exact absurd h (by simp)
      · simp [indexPhase, hex]
    · simp [indexPhase, fileExists_fsRemove_self (fsRemove fs ip) pp]
  · rcases refetch with _ | _
    · by_cases hex : fileExists fs pp = true
      · simp [indexPhase, hex]
      · simp only [Bool.not_eq_true] at hex
        simp [indexPhase, hex]
        try decide
    · simp [indexPhase, fileExists_fsRemove_self (fsRemove fs ip) pp]
      try decide
  · rcases refetch with _ | _
    · by_cases hex : fileExists fs pp = true
      · simp [indexPhase, hex]
      · simp only [Bool.not_eq_true] at hex
        simp [indexPhase, hex]
        try decide
    · simp [indexPhase, fileExists_fsRemove_self (fsRemove fs ip) pp]
      try decide

/-- Witness for C9: with the parsed index already on disk and no refetch,
nothing is fetched or written and the files are unchanged. -/
theorem index_write_read_once_witness :
    indexPhase (fun _ => 0) false "image" "out/image_index.html"
      "out/image_index.html.csv" "<html>" [("out/image_index.html.csv", 5)] =
      ([("out/image_index.html.csv", 5)], [IdxEvent.readParsed]) :=
  (index_write_read_once (fun _ => 0) false "image" "out/image_index.html"
    "out/image_index.html.csv" "<html>" [("out/image_index.html.csv", 5)]).1
    rfl (by decide)

/-- C10.  Lidar source fallback: for `--type lidar`, all-frames mode is
forced and the folder URLs of `lvis`, `atm1`, `atm2` are probed in that
order; the effective type becomes the first that passes the URL-existence
check; if none passes, `main` returns -1, except under
`--zip-if-all-fetched` where only a warning is logged and the type stays
`lidar`. -/
theorem lidar_fallback (zip : Bool) (headStatus : String → Nat)
    (y m d : Nat) (site : String) :
    (lidarUrlOk headStatus y m d site "lvis" = true →
      lidarResolve zip headStatus y m d site = .ok ("lvis", true))
    ∧ (lidarUrlOk headStatus y m d site "lvis" = false →
       lidarUrlOk headStatus y m d site "atm1" = true →
      lidarResolve zip headStatus y m d site = .ok ("atm1", true))
    ∧ (lidarUrlOk headStatus y m d site "lvis" = false →
       lidarUrlOk headStatus y m d site "atm1" = false →
       lidarUrlOk headStatus y m d site "atm2" = true →
      lidarResolve zip headStatus y m d site = .ok ("atm2", true))
    ∧ (lidarUrlOk headStatus y m d site "lvis" = false →
       lidarUrlOk headStatus y m d site "atm1" = false →
       lidarUrlOk headStatus y m d site "atm2" = false →
      lidarResolve true headStatus y m d site = .ok ("lidar", true)
      ∧ lidarResolve false headStatus y m d site = .error (-1))
    ∧ (∀ res, lidarResolve zip headStatus y m d site = .ok res → res.2 = true) := by
  refine ⟨?_, ?_, ?_, ?_, ?_⟩
  · intro h1
    simp [lidarResolve, LIDAR_TYPES, findLidarType, h1]
  · intro h1 h2
    simp [lidarResolve, LIDAR_TYPES, findLidarType, h1, h2]
  · intro h1 h2 h3
    simp [lidarResolve, LIDAR_TYPES, findLidarType, h1, h2, h3]
  · intro h1 h2 h3
    constructor <;> simp [lidarResolve, LIDAR_TYPES, findLidarType, h1, h2, h3]
  · intro res h
    rw [lidarResolve] at h
    rcases hf : findLidarType headStatus y m d site LIDAR_TYPES with _ | t
    · rw [hf] at h
      rcases zip with _ | _
      · simp at h
      · simp only [if_pos trivial] at h
        simp only [Except.ok.injEq] at h
        rw [← h]
    · rw [hf] at h
      simp only [Except.ok.injEq] at h
      rw [← h]

/-- Witness for C10: when no lidar folder URL exists (HEAD always answers
404) and `--zip-if-all-fetched` is off, `main` returns -1. -/
theorem lidar_fallback_witness :
    lidarResolve false (fun _ => 404) 2011 10 18 "GR" = .error (-1) :=
  ((lidar_fallback false (fun _ => 404) 2011 10 18 "GR").2.2.2.1
    (by decide) (by decide) (by decide)).2

/-- C2.  Fetch only missing files: for a selected frame, the file (and for
ortho and lidar types its `.xml` companion) has its URL appended to the
curl command exactly when its output path fails the `fileExists` check
performed at that point (after the possible wipe of an invalid image under
`--zip-if-all-fetched`): the path is absent or has size 0.  A file that
passes the check (exists with positive size) is not re-downloaded, and
without `--zip-if-all-fetched` no wipe happens at all. -/
theorem fetch_only_missing (zip : Bool) (hasImg isValid : String → Bool)
    (folderUrl outputFolder filename fileType : String) (st : DLState) :
    (fileType ∈ LIDAR_TYPES ∨ fileType = "ortho" →
      currFilesToFetch fileType filename = [filename, filename ++ ".xml"])
    ∧ (¬(fileType ∈ LIDAR_TYPES ∨ fileType = "ortho") →
      currFilesToFetch fileType filename = [filename])
    ∧ ((fileStep zip hasImg isValid folderUrl outputFolder filename st).curlUrls =
        st.curlUrls ++ [pathJoin folderUrl filename] ↔
      fileExists
        (wipeStep zip hasImg isValid st.fs (pathJoin outputFolder filename))
        (pathJoin outputFolder filename) = false)
    ∧ (fileExists
        (wipeStep zip hasImg isValid st.fs (pathJoin outputFolder filename))
        (pathJoin outputFolder filename) = false →
      (fileStep zip hasImg isValid folderUrl outputFolder filename st).curlUrls =
        st.curlUrls ++ [pathJoin folderUrl filename]
      ∧ (fileStep zip hasImg isValid folderUrl outputFolder filename st).count =
        st.count + 1)
    ∧ (fileExists
        (wipeStep zip hasImg isValid st.fs (pathJoin outputFolder filename))
        (pathJoin outputFolder filename) = true →
      (fileStep zip hasImg isValid folderUrl outputFolder filename st).curlUrls =
        st.curlUrls
      ∧ (fileStep zip hasImg isValid folderUrl outputFolder filename st).count =
        st.count)
    ∧ (zip = false →
      wipeStep zip hasImg isValid st.fs (pathJoin outputFolder filename) = st.fs) := by
  refine ⟨?_, ?_, ?_, ?_, ?_, ?_⟩
  · intro h
    simp [currFilesToFetch, h]
  · intro h
    simp [currFilesToFetch, h]
  · by_cases hex : fileExists
        (wipeStep zip hasImg isValid st.fs (pathJoin outputFolder filename))
        (pathJoin outputFolder filename) = true
    · simp [fileStep, hex]
    · simp only [Bool.not_eq_true] at hex
      simp [fileStep, hex]
  · intro hex
    simp [fileStep, hex]
  · intro hex
    simp [fileStep, hex]
  · rintro rfl
    simp [wipeStep]

/-- Witness for C2: with an empty filesystem the file is missing, so its
URL is appended and the count grows by one; and for type `ortho` the frame
fetches the file and its `.xml` companion. -/
theorem fetch_only_missing_witness :
    currFilesToFetch "ortho" "a.tif" = ["a.tif", "a.tif.xml"]
    ∧ (fileStep false (fun _ => false) (fun _ => true) "u" "o" "a.tif"
        ⟨[], [], 0, [], []⟩).curlUrls = [] ++ [pathJoin "u" "a.tif"]
    ∧ (fileStep false (fun _ => false) (fun _ => true) "u" "o" "a.tif"
        ⟨[], [], 0, [], []⟩).count = 0 + 1 :=
  ⟨(fetch_only_missing false (fun _ => false) (fun _ => true) "u" "o" "a.tif"
      "ortho" ⟨[], [], 0, [], []⟩).1 (by decide),
   (fetch_only_missing false (fun _ => false) (fun _ => true) "u" "o" "a.tif"
      "ortho" ⟨[], [], 0, [], []⟩).2.2.2.1 (by decide)⟩

/-- Success of `finalValidation` is exactly "every file exists with positive
size and every image among them is valid", and the filesystem is returned
unchanged. -/
lemma finalValidation_ok_iff (hasImg isValid : String → Bool) (fs : Fs)
    (paths : List String) :
    finalValidation hasImg isValid fs paths = .ok fs ↔
      ∀ p ∈ paths, fileExists fs p = true ∧ (hasImg p = true → isValid p = true) := by
  induction paths with
  | nil => simp [finalValidation]
  | cons p rest ih =>
      by_cases hex : fileExists fs p = true
      · by_cases him : hasImg p = true ∧ isValid p = false
        · simp [finalValidation, hex, him.1, him.2]
        · rw [not_and_or] at him
          rcases him with him | him
          · simp only [Bool.not_eq_true] at him
            simp [finalValidation, hex, him, ih]
          · simp only [Bool.not_eq_false] at him
            simp [finalValidation, hex, him, ih]
      · simp only [Bool.not_eq_true] at hex
        simp [finalValidation, hex]

/-- `finalValidation` raises on the first offending path: a missing or
empty file raises with the filesystem unchanged. -/
lemma finalValidation_error_missing (hasImg isValid : String → Bool) (fs : Fs)
    (p : String) (post : List String) :
    ∀ pre : List String,
      (∀ q ∈ pre, fileExists fs q = true ∧ (hasImg q = true → isValid q = true)) →
      fileExists fs p = false →
      finalValidation hasImg isValid fs (pre ++ p :: post) =
        .error ("Cannot zip, missing file: " ++ p, fs) := by
  intro pre
  induction pre with
  | nil =>
      intro _ hex
      simp [finalValidation, hex]
  | cons q rest ih =>
      intro hpre hex
      obtain ⟨hq, hrest⟩ := List.forall_mem_cons.mp hpre
      rw [List.cons_append, finalValidation, hq.1]
      by_cases him : hasImg q = true
      · rw [him, hq.2 him]
        simpa using ih hrest hex
      · simp only [Bool.not_eq_true] at him
        rw [him]
        simpa using ih hrest hex

/-- `finalValidation` raises on the first offending path: an existing image
that fails validation is removed from the filesystem and then raises. -/
lemma finalValidation_error_invalid (hasImg isValid : String → Bool) (fs : Fs)
    (p : String) (post : List String) :
    ∀ pre : List String,
      (∀ q ∈ pre, fileExists fs q = true ∧ (hasImg q = true → isValid q = true)) →
      fileExists fs p = true → hasImg p = true → isValid p = false →
      finalValidation hasImg isValid fs (pre ++ p :: post) =
        .error ("Found an invalid image. Cannot zip. Please rerun fetching. " ++
          "Will wipe the invalid image: " ++ p, fsRemove fs p) := by
  intro pre
  induction pre with
  | nil =>
      intro _ hex him hval
      simp [finalValidation, hex, him, hval]
  | cons q rest ih =>
      intro hpre hex him hval
      obtain ⟨hq, hrest⟩ := List.forall_mem_cons.mp hpre
      rw [List.cons_append, finalValidation, hq.1]
      by_cases hqi : hasImg q = true
      · rw [hqi, hq.2 hqi]
        simpa using ih hrest hex him hval
      · simp only [Bool.not_eq_true] at hqi
        rw [hqi]
        simpa using ih hrest hex him hval

/-- C8.  Post-download validation under `--zip-if-all-fetched`: `main`
returns 0 exactly when every path in `allFilesToFetch` exists with positive
size and every image among them is valid; on the first missing or empty
file it raises with the filesystem unchanged, and on the first invalid
image it removes the file and then raises. -/
theorem final_validation_spec (hasImg isValid : String → Bool) (fs : Fs)
    (paths : List String) :
    (zipFinalCheck true hasImg isValid fs paths = .ok 0 ↔
      ∀ p ∈ paths, fileExists fs p = true ∧ (hasImg p = true → isValid p = true))
    ∧ (∀ pre p post, paths = pre ++ p :: post →
        (∀ q ∈ pre, fileExists fs q = true ∧ (hasImg q = true → isValid q = true)) →
        (fileExists fs p = false →
          zipFinalCheck true hasImg isValid fs paths =
            .error ("Cannot zip, missing file: " ++ p, fs))
        ∧ (fileExists fs p = true → hasImg p = true → isValid p = false →
          zipFinalCheck true hasImg isValid fs paths =
            .error ("Found an invalid image. Cannot zip. Please rerun fetching. " ++
              "Will wipe the invalid image: " ++ p, fsRemove fs p))) := by
  have hok : ∀ v, finalValidation hasImg isValid fs paths = .ok v → v = fs := by
    intro v hv
    induction paths with
    | nil => simpa [finalValidation] using hv.symm
    | cons p rest ih =>
        rw [finalValidation] at hv
        by_cases hex : fileExists fs p = true
        · rw [hex] at hv
          by_cases him : hasImg p = true && isValid p = false
          · simp_all
          · by_cases hi : hasImg p = true
            · have : isValid p = true := by
                rcases hb : isValid p with _ | _
                · exact absurd (by simp [hi, hb]) him
                · rfl
              rw [hi, this] at hv
              exact ih (by simpa using hv)
            · simp only [Bool.not_eq_true] at hi
              rw [hi] at hv
              exact ih (by simpa using hv)
        · simp only [Bool.not_eq_true] at hex
          rw [hex] at hv
          simp at hv
  constructor
  · rw [zipFinalCheck, if_pos rfl]
    constructor
    · intro h
      rcases hv : finalValidation hasImg isValid fs paths with e | v
      · rw [hv] at h
        simp [Except.map] at h
      · rw [hok v hv] at hv
        exact (finalValidation_ok_iff hasImg isValid fs paths).mp hv
    · intro h
      rw [(finalValidation_ok_iff hasImg isValid fs paths).mpr h]
      rfl
  · rintro pre p post rfl hpre
    constructor
    · intro hex
      rw [zipFinalCheck, if_pos rfl,
        finalValidation_error_missing hasImg isValid fs p post pre hpre hex]
      rfl
    · intro hex him hval
      rw [zipFinalCheck, if_pos rfl,
        finalValidation_error_invalid hasImg isValid fs p post pre hpre hex him hval]
      rfl

set_option maxRecDepth 40000 in
/-- C6, as stated, is false: the batch bound `MAX_IN_ONE_CALL` can be
exceeded by one, because the count is only compared against the bound after
a whole frame is processed and an ortho/lidar frame adds two files.  On
this concrete ortho table of 51 frames (frame 0's `.tif` already on disk,
everything else missing) the single executed curl command carries 101
targets. -/
theorem batching_counterexample :
    ((runDownloadLoop false (fun _ => false) (fun _ => true) "ortho" "u" "o"
      (some 0) (some 50)
      (((0 : Int), "g.tif") ::
        (List.range 50).map (fun i => ((i : Int) + 1, "f.tif")))
      [("o/g.tif", 1)]).batches.map List.length = [101])
    ∧ MAX_IN_ONE_CALL = 100 := by
  constructor
  · decide
  · rfl

/-- C6, amended: a curl command is executed whenever, after all files of a
frame are appended, the accumulated count has reached `MAX_IN_ONE_CALL` or
the table's last frame was processed with a nonzero pending count; the
count then resets.  Since the check runs only between frames and a frame
adds at most two files, an executed command holds at most
`MAX_IN_ONE_CALL + 1` file URLs, and the executed batches together contain
every selected missing file URL (with nothing left pending). -/
theorem batching_corrected (zip : Bool) (hasImg isValid : String → Bool)
    (fileType folderUrl outputFolder : String)
    (startFrame stopFrame : Option Int) (table : FrameTable) (fs : Fs) :
    (∀ b ∈ (runDownloadLoop zip hasImg isValid fileType folderUrl outputFolder
        startFrame stopFrame table fs).batches,
      b.length ≤ MAX_IN_ONE_CALL + 1)
    ∧ (runDownloadLoop zip hasImg isValid fileType folderUrl outputFolder
        startFrame stopFrame table fs).batches.join ++
      (runDownloadLoop zip hasImg isValid fileType folderUrl outputFolder
        startFrame stopFrame table fs).curlUrls =
      specRequestedUrls zip hasImg isValid fileType folderUrl outputFolder
        startFrame stopFrame table fs
    ∧ (table ≠ [] →
      (runDownloadLoop zip hasImg isValid fileType folderUrl outputFolder
        startFrame stopFrame table fs).curlUrls = []) := by
  have hinv0 : DLInv ⟨fs, [], 0, [], []⟩ := by
    refine ⟨rfl, ?_, by simp⟩
    show 0 + 1 ≤ MAX_IN_ONE_CALL
    have hM : MAX_IN_ONE_CALL = 100 := rfl
    omega
  obtain ⟨g1, g2, g3⟩ := downloadLoop_aux zip hasImg isValid fileType folderUrl
    outputFolder startFrame stopFrame table (allFramesOf table).getLast?
    (allFramesOf table) ⟨fs, [], 0, [], []⟩ hinv0
  refine ⟨fun b hb => g1.2.2 b hb, ?_, ?_⟩
  · rw [runDownloadLoop, specRequestedUrls]
    simpa using g2
  · intro hne
    have hkne : allFramesOf table ≠ [] := by
      obtain ⟨p0, hp0⟩ := List.exists_mem_of_ne_nil table hne
      exact List.ne_nil_of_mem
        ((mem_allFramesOf table p0.1).mpr (List.mem_map_of_mem _ hp0))
    rw [runDownloadLoop]
    exact downloadLoop_flushes zip hasImg isValid fileType folderUrl
      outputFolder startFrame stopFrame table (allFramesOf table) hkne
      ⟨fs, [], 0, [], []⟩ hinv0

/-- Witness for C6 (amended): a one-frame table yields a single executed
batch within the bound and leaves nothing pending. -/
theorem batching_corrected_witness :
    (["u/a.JPG"].length ≤ MAX_IN_ONE_CALL + 1)
    ∧ (runDownloadLoop false (fun _ => false) (fun _ => true) "image" "u" "o"
        (some 1) (some 1) [((1 : Int), "a.JPG")] []).curlUrls = [] :=
  ⟨(batching_corrected false (fun _ => false) (fun _ => true) "image" "u" "o"
      (some 1) (some 1) [((1 : Int), "a.JPG")] []).1 ["u/a.JPG"] (by decide),
   (batching_corrected false (fun _ => false) (fun _ => true) "image" "u" "o"
      (some 1) (some 1) [((1 : Int), "a.JPG")] []).2.2 (by decide)⟩

/-- Witness for C8: one existing non-image file passes the final check and
`main` returns 0; a missing file raises. -/
theorem final_validation_witness :
    zipFinalCheck true (fun _ => false) (fun _ => false) [("o/a.tif", 3)]
      ["o/a.tif"] = .ok 0
    ∧ zipFinalCheck true (fun _ => false) (fun _ => false) [("o/a.tif", 3)]
      ["o/a.tif", "o/b.tif"] =
        .error ("Cannot zip, missing file: " ++ "o/b.tif", [("o/a.tif", 3)]) :=
  ⟨(final_validation_spec (fun _ => false) (fun _ => false) [("o/a.tif", 3)]
      ["o/a.tif"]).1.mpr (by decide),
   ((final_validation_spec (fun _ => false) (fun _ => false) [("o/a.tif", 3)]
      ["o/a.tif", "o/b.tif"]).2 ["o/a.tif"] "o/b.tif" [] rfl (by decide)).1
      (by decide)⟩

end IceBridge
